import Mathlib

/-!
Verification of the ochre/melanin color library.

The sources embedded here are `src/melanin/colorsys.py`, `src/melanin/spaces.py`,
`src/melanin/_color.py`, `src/aestiva/_misc.py` and `src/ochre/spaces.py`.
Channel values are embedded as real numbers, discrete codes and byte values as
integers.  Python's `int()` (truncation toward zero), `round()`, list indexing
(which accepts negative indices) and `<<` on integers are modelled explicitly.
-/

/-- Python `int(x)` on a float: truncation toward zero. -/
noncomputable def pyInt (x : ℝ) : ℤ :=
  if 0 ≤ x then ⌊x⌋ else -⌊-x⌋

/-- Python list indexing `l[i]`: a negative index counts from the end, an index
out of range raises `IndexError` (modelled as `none`). -/
def pyGet {α : Type} (l : List α) (i : ℤ) : Option α :=
  if 0 ≤ i then l.get? i.toNat
  else if 0 ≤ i + l.length then l.get? (i + l.length).toNat
  else none

/-- `aestiva._misc.clamp`.  The source gives `min_value = 0.0` and
`max_value = 1.0` as defaults; callers here pass them explicitly. -/
noncomputable def clamp (value min_value max_value : ℝ) : ℝ :=
  max min_value (min value max_value)

/-- `melanin.spaces.RGB`: an RGB color, one real per channel. -/
structure RGB where
  red : ℝ
  green : ℝ
  blue : ℝ

/-- Modelled from the spec: `melanin/web.py` is not among the repository files;
the spec (§6) requires a fixed name-to-24-bit-integer table holding at least the
16 basic HTML color names with their standard values. -/
def webColors : List (String × ℕ) :=
  [("black", 0x000000), ("maroon", 0x800000), ("green", 0x008000),
   ("olive", 0x808000), ("navy", 0x000080), ("purple", 0x800080),
   ("teal", 0x008080), ("silver", 0xc0c0c0), ("grey", 0x808080),
   ("gray", 0x808080), ("red", 0xff0000), ("lime", 0x00ff00),
   ("yellow", 0xffff00), ("blue", 0x0000ff), ("fuchsia", 0xff00ff),
   ("aqua", 0x00ffff), ("white", 0xffffff)]

/-- Dictionary lookup `web.colors[name]`; a missing key raises `KeyError`
(modelled as `none`). -/
def webLookup (name : String) : Option ℕ :=
  (webColors.find? (fun p => p.1 == name)).map (fun p => p.2)

/-- `melanin.spaces.Hex.rgb`: decode a 24-bit integer into channels in [0, 1]. -/
noncomputable def hexRgb (integer : ℕ) : RGB :=
  ⟨(((integer >>> 16) &&& 0xff : ℕ) : ℝ) / 255,
   (((integer >>> 8) &&& 0xff : ℕ) : ℝ) / 255,
   ((integer &&& 0xff : ℕ) : ℝ) / 255⟩

/-- An entry of `melanin.spaces.Ansi256.ANSI8`: a `WebColor(name)` or a
`Hex("#......")` value. -/
inductive BaseColor : Type
  | webColor (name : String)
  | hexColor (value : ℕ)

/-- The RGB projection of an `ANSI8` entry (`WebColor.rgb` resolves the name
through `web.colors` and decodes the resulting hex integer). -/
noncomputable def BaseColor.rgb : BaseColor → Option RGB
  | .webColor name => (webLookup name).map hexRgb
  | .hexColor value => some (hexRgb value)

/-- `melanin.spaces.Ansi256.ANSI8`, in source order. -/
def ANSI8 : List BaseColor :=
  [.webColor ("black"), .webColor ("maroon"), .webColor ("green"),
   .hexColor 0x808000, .hexColor 0x000080, .hexColor 0x800080,
   .hexColor 0x008080, .webColor ("silver"), .webColor ("grey"),
   .webColor ("red"), .hexColor 0x00ff00, .hexColor 0xffff00,
   .hexColor 0x0000ff, .webColor ("fuchsia"), .hexColor 0x00ffff,
   .webColor ("white")]

/-- `melanin.spaces.Ansi256.rgb`: decode an ANSI-256 code.  `none` models a
raised error (`IndexError` below -16 via Python list indexing, `ValueError`
above 255). -/
noncomputable def Ansi256.rgb (code : ℤ) : Option RGB :=
  if code < 16 then (pyGet ANSI8 code).bind BaseColor.rgb
  else if code < 232 then
    let n : ℕ := (code - 16).toNat
    let red_i := n / 36
    let green_i := (n % 36) / 6
    let blue_i := n % 6
    let red : ℕ := if red_i > 0 then 55 + red_i * 40 else 0
    let green : ℕ := if green_i > 0 then 55 + green_i * 40 else 0
    let blue : ℕ := if blue_i > 0 then 55 + blue_i * 40 else 0
    some ⟨(red : ℝ) / 255, (green : ℝ) / 255, (blue : ℝ) / 255⟩
  else if code < 256 then
    let value : ℕ := (code - 232).toNat * 10 + 8
    some ⟨(value : ℝ) / 255, (value : ℝ) / 255, (value : ℝ) / 255⟩
  else none

/-- `melanin.spaces.RGB.hex`: each channel is truncated (Python `int`) after
multiplication by 255, and the bytes are packed by shifts (`x << k` on Python
integers is `x * 2 ^ k`). -/
noncomputable def RGB.hex (c : RGB) : ℤ :=
  pyInt (c.red * 255) * 2 ^ 16 + pyInt (c.green * 255) * 2 ^ 8 + pyInt (c.blue * 255)

/-- `melanin.spaces.Color.__index__` for an RGB color: `self.hex.integer`. -/
noncomputable def RGB.index (c : RGB) : ℤ :=
  c.hex

/-- The spec's own formula for the hexadecimal-integer projection:
`round(255·(0x10000·r + 0x100·g + b))`. -/
noncomputable def specIndex (r g b : ℝ) : ℤ :=
  round (255 * (0x10000 * r + 0x100 * g + b))

/-- `melanin._color.Color`: a NamedTuple of three float channels. -/
structure Color where
  red : ℝ
  green : ℝ
  blue : ℝ

/-- `melanin._color.Color.frombytes` (`clamp` is `aestiva._misc.clamp` with its
default bounds 0 and 1). -/
noncomputable def Color.frombytes (red green blue : ℤ) : Color :=
  ⟨clamp ((red : ℝ) / 255) 0 1, clamp ((green : ℝ) / 255) 0 1,
   clamp ((blue : ℝ) / 255) 0 1⟩

/-- `melanin._color.Color.tobytes`: truncating multiplication by 255. -/
noncomputable def Color.tobytes (c : Color) : ℤ × ℤ × ℤ :=
  (pyInt (255 * c.red), pyInt (255 * c.green), pyInt (255 * c.blue))

/-- The sRGB linearization applied per channel in `melanin.colorsys.rgb_to_xyz`
(spec §4.1 `linearize`). -/
noncomputable def linChan (c : ℝ) : ℝ :=
  if c > 0.04045 then ((c + 0.055) / 1.055) ^ (2.4 : ℝ) else c / 12.92

/-- The sRGB delinearization applied per channel in
`melanin.colorsys.xyz_to_rgb` (spec §4.1 `delinearize`); `1/2.4 = 5/12`. -/
noncomputable def delinChan (c : ℝ) : ℝ :=
  if c > 0.0031308 then 1.055 * c ^ ((1 : ℝ) / 2.4) - 0.055 else 12.92 * c

/-- `melanin.colorsys.rgb_to_xyz`. -/
noncomputable def rgb_to_xyz (r g b : ℝ) : ℝ × ℝ × ℝ :=
  let r := if r > 0.04045 then ((r + 0.055) / 1.055) ^ (2.4 : ℝ) else r / 12.92
  let g := if g > 0.04045 then ((g + 0.055) / 1.055) ^ (2.4 : ℝ) else g / 12.92
  let b := if b > 0.04045 then ((b + 0.055) / 1.055) ^ (2.4 : ℝ) else b / 12.92
  (0.4124 * r + 0.3576 * g + 0.1805 * b,
   0.2126 * r + 0.7152 * g + 0.0722 * b,
   0.0193 * r + 0.1192 * g + 0.9505 * b)

/-- `melanin.colorsys.xyz_to_rgb`. -/
noncomputable def xyz_to_rgb (x y z : ℝ) : ℝ × ℝ × ℝ :=
  let r := 3.2406254 * x - 1.537208 * y - 0.4986286 * z
  let g := -0.9689307 * x + 1.8757561 * y + 0.0415175 * z
  let b := 0.0557101 * x - 0.2040211 * y + 1.0569959 * z
  let r := if r > 0.0031308 then 1.055 * r ^ ((1 : ℝ) / 2.4) - 0.055 else 12.92 * r
  let g := if g > 0.0031308 then 1.055 * g ^ ((1 : ℝ) / 2.4) - 0.055 else 12.92 * g
  let b := if b > 0.0031308 then 1.055 * b ^ ((1 : ℝ) / 2.4) - 0.055 else 12.92 * b
  (r, g, b)

/-- `melanin.colorsys.EPSILON`. -/
noncomputable def EPSILON : ℝ := (6 / 29) ^ (3 : ℕ)

/-- `melanin.colorsys.KAPPA`. -/
noncomputable def KAPPA : ℝ := (29 / 3) ^ (3 : ℕ)

/-- `melanin.colorsys._xyz_to_uv` (the `x == y == 0` guard averts the division
by zero at black). -/
noncomputable def _xyz_to_uv (x y z : ℝ) : ℝ × ℝ :=
  if x = 0 ∧ y = 0 then (0, 0)
  else
    let d := x + 15 * y + 3 * z
    (4 * x / d, 9 * y / d)

/-- `melanin.colorsys.REF_UV_D65_2 = _xyz_to_uv(*REF_XYZ_D65_2)`. -/
noncomputable def REF_UV_D65_2 : ℝ × ℝ :=
  _xyz_to_uv 0.95047 1.00000 1.08883

/-- `melanin.colorsys._luv_to_uv`. -/
noncomputable def _luv_to_uv (ell u v : ℝ) : ℝ × ℝ :=
  let d := 13 * ell
  (u / d + REF_UV_D65_2.1, v / d + REF_UV_D65_2.2)

/-- `melanin.colorsys.luv_to_xyz` (the `ell == 0` guard returns black exactly). -/
noncomputable def luv_to_xyz (ell u v : ℝ) : ℝ × ℝ × ℝ :=
  if ell = 0 then (0, 0, 0)
  else
    let ell := 100 * ell
    let u := 100 * u
    let v := 100 * v
    let uv := _luv_to_uv ell u v
    let u := uv.1
    let v := uv.2
    let four_v := 4 * v
    let y := if ell > 8 then ((ell + 16) / 116) ^ (3 : ℕ) else ell / KAPPA
    (9 * y * u / four_v, y, y * (12 - 3 * u - 20 * v) / four_v)

/-- Python `math.atan2(y, x)`: the argument of the point `(x, y)`, in
`(-π, π]`, with `atan2(0, 0) = 0`. -/
noncomputable def atan2 (y x : ℝ) : ℝ :=
  Complex.arg ⟨x, y⟩

/-- Python `math.hypot` with two arguments. -/
noncomputable def hypot2 (x y : ℝ) : ℝ :=
  Real.sqrt (x ^ 2 + y ^ 2)

/-- Python `math.hypot` with three arguments. -/
noncomputable def hypot3 (x y z : ℝ) : ℝ :=
  Real.sqrt (x ^ 2 + y ^ 2 + z ^ 2)

/-- `melanin.colorsys.luv_to_lch` (`math.tau = 2π`). -/
noncomputable def luv_to_lch (ell u v : ℝ) : ℝ × ℝ × ℝ :=
  let h := atan2 v u
  let c := hypot2 v u
  let h2 := if h < 0 then h + 2 * Real.pi else h
  (ell, c, h2)

/-- `melanin.spaces._dist_rgb`. -/
noncomputable def _dist_rgb (color1 color2 : RGB) : ℝ :=
  Real.sqrt ((color1.red - color2.red) ^ 2 + (color1.green - color2.green) ^ 2
    + (color1.blue - color2.blue) ^ 2)

/-- The loop of `melanin.spaces._closest_color_rgb`, over a list of candidates
with RGB projection `rgbOf`.  The accumulator is the current
`(minimal_color, minimal_distance)` pair; `none` is the initial state
`(None, math.inf)`, and the first candidate always replaces it because every
`_dist_rgb` value is a (finite) real. -/
noncomputable def closestLoop {α : Type} (color : RGB) (rgbOf : α → RGB) :
    List α → Option (α × ℝ) → Option (α × ℝ)
  | [], acc => acc
  | other :: rest, acc =>
    let distance := _dist_rgb color (rgbOf other)
    match acc with
    | none => closestLoop color rgbOf rest (some (other, distance))
    | some (b, m) =>
      if distance < m then closestLoop color rgbOf rest (some (other, distance))
      else closestLoop color rgbOf rest (some (b, m))

/-- `melanin.spaces._closest_color_rgb`: `none` models the `AssertionError`
raised when the iterable yields no candidate. -/
noncomputable def _closest_color_rgb {α : Type} (color : RGB) (rgbOf : α → RGB)
    (colors : List α) : Option α :=
  (closestLoop color rgbOf colors none).map Prod.fst

/-- `ochre.spaces.Color.EQUALITY_THRESHOLD`. -/
noncomputable def EQUALITY_THRESHOLD : ℝ := 7e-3

/-- `ochre.spaces.Color.__eq__`: the colors compared through their RGB
projections (so a color is modelled by that projection); a non-`Color` operand
(the `Sum.inr` case) raises `TypeError` instead of comparing. -/
noncomputable def ochreEq (self : RGB) (other : RGB ⊕ Unit) : Except String Prop :=
  match other with
  | .inr _ => .error ("is not a Color")
  | .inl o =>
    .ok (hypot3 (self.red - o.red) (self.green - o.green) (self.blue - o.blue)
      < EQUALITY_THRESHOLD)

/-- Claim C8: the achromatic guards hold: for every z, `_xyz_to_uv 0 0 z`
returns `(0, 0)` without reaching the division, and `luv_to_xyz` at
lightness 0 returns exactly `(0, 0, 0)`. -/
theorem achromatic_guards :
    (∀ z : ℝ, _xyz_to_uv 0 0 z = (0, 0)) ∧
    (∀ u v : ℝ, luv_to_xyz 0 u v = (0, 0, 0)) := by
  constructor
  · intro z
    simp [_xyz_to_uv]
  · intro u v
    simp [luv_to_xyz]

/-- Byte round trip for one channel: `int(255 * clamp(n / 255, 0, 1)) = n`. -/
theorem pyInt_clamp_channel (n : ℤ) (h0 : 0 ≤ n) (h255 : n ≤ 255) :
    pyInt (255 * clamp ((n : ℝ) / 255) 0 1) = n := by
  have hn0 : (0 : ℝ) ≤ (n : ℝ) / 255 := by positivity
  have hn1 : (n : ℝ) / 255 ≤ 1 := by
    rw [div_le_one (by norm_num)]
    exact_mod_cast h255
  have hclamp : clamp ((n : ℝ) / 255) 0 1 = (n : ℝ) / 255 := by
    rw [clamp, min_eq_left hn1, max_eq_right hn0]
  rw [hclamp, mul_div_cancel₀ _ (by norm_num : (255 : ℝ) ≠ 0), pyInt,
    if_pos (by exact_mod_cast h0), Int.floor_intCast]

/-- Claim C10: `Color.frombytes(r, g, b).tobytes() = (r, g, b)` for all byte
values in [0, 255]: the byte-to-float-to-byte round trip is lossless. -/
theorem frombytes_tobytes_roundtrip (red green blue : ℤ)
    (hr0 : 0 ≤ red) (hr1 : red ≤ 255) (hg0 : 0 ≤ green) (hg1 : green ≤ 255)
    (hb0 : 0 ≤ blue) (hb1 : blue ≤ 255) :
    (Color.frombytes red green blue).tobytes = (red, green, blue) := by
  rw [Color.frombytes, Color.tobytes]
  simp only
  rw [pyInt_clamp_channel red hr0 hr1, pyInt_clamp_channel green hg0 hg1,
    pyInt_clamp_channel blue hb0 hb1]

/-- Witness for C10 at the bytes (10, 20, 30). -/
theorem frombytes_tobytes_roundtrip_witness :
    (Color.frombytes 10 20 30).tobytes = (10, 20, 30) :=
  frombytes_tobytes_roundtrip 10 20 30 (by norm_num) (by norm_num) (by norm_num)
    (by norm_num) (by norm_num) (by norm_num)

/-- Counterexample to claim C9: at `RGB(0, 0, 0.003)` the code's hexadecimal
projection is `int(0.765) = 0`, while the spec formula
`round(255·(0x10000·r + 0x100·g + b)) = round(0.765)` is 1. -/
theorem hex_index_round_counterexample :
    RGB.index ⟨0, 0, 0.003⟩ ≠ specIndex 0 0 0.003 := by
  have hcode : RGB.index ⟨0, 0, 0.003⟩ = 0 := by
    rw [RGB.index, RGB.hex]
    simp only
    norm_num [pyInt]
  have hspec : specIndex 0 0 0.003 = 1 := by
    rw [specIndex]
    norm_num [round_eq]
  rw [hcode, hspec]
  norm_num

/-- Claim C9 as amended: the hexadecimal-integer projection truncates each
channel separately: it equals
`int(255·r)·0x10000 + int(255·g)·0x100 + int(255·b)`. -/
theorem hex_index_truncation (c : RGB) :
    c.index = pyInt (255 * c.red) * 0x10000 + pyInt (255 * c.green) * 0x100
      + pyInt (255 * c.blue) := by
  rw [RGB.index, RGB.hex, mul_comm c.red 255, mul_comm c.green 255,
    mul_comm c.blue 255]
  norm_num

/-- Claim C2 as amended: `xyz_to_rgb` applies the inverse matrix and then
delinearizes each channel; no clamping step follows. -/
theorem xyz_to_rgb_no_clamp (x y z : ℝ) :
    xyz_to_rgb x y z =
      (delinChan (3.2406254 * x - 1.537208 * y - 0.4986286 * z),
       delinChan (-0.9689307 * x + 1.8757561 * y + 0.0415175 * z),
       delinChan (0.0557101 * x - 0.2040211 * y + 1.0569959 * z)) :=
  rfl

/-- Counterexample to claim C2: at the out-of-gamut input `(1, 0, 0)` the green
channel of `xyz_to_rgb` is negative, so the result is not clamped to [0, 1]. -/
theorem xyz_to_rgb_out_of_gamut_counterexample :
    (xyz_to_rgb 1 0 0).2.1 < 0 := by
  rw [xyz_to_rgb_no_clamp]
  simp only
  rw [delinChan, if_neg (by norm_num)]
  norm_num

/-- Claim C4: `Color.__eq__` returns the truth of `distance < 7e-3` on the RGB
projections, and raises `TypeError` on a non-`Color` operand. -/
theorem ochre_eq_threshold_and_type_error (a o : RGB) (u : Unit) :
    ochreEq a (Sum.inl o) = Except.ok (_dist_rgb a o < 7 / 1000) ∧
    ochreEq a (Sum.inr u) = Except.error ("is not a Color") := by
  constructor
  · rw [ochreEq]
    have hth : EQUALITY_THRESHOLD = 7 / 1000 := by
      rw [EQUALITY_THRESHOLD]
      norm_num
    rw [hth]
    rfl
  · rfl

/-- Claim C7: the hue produced by `luv_to_lch` lies in [0, 2π): it is
`atan2(v, u)` when that is nonnegative and `atan2(v, u) + 2π` otherwise. -/
theorem luv_to_lch_hue_range (ell u v : ℝ) :
    0 ≤ (luv_to_lch ell u v).2.2 ∧ (luv_to_lch ell u v).2.2 < 2 * Real.pi ∧
    (0 ≤ atan2 v u → (luv_to_lch ell u v).2.2 = atan2 v u) ∧
    (atan2 v u < 0 → (luv_to_lch ell u v).2.2 = atan2 v u + 2 * Real.pi) := by
  have hlow : -Real.pi < atan2 v u := Complex.neg_pi_lt_arg _
  have hhigh : atan2 v u ≤ Real.pi := Complex.arg_le_pi _
  have hpi : 0 < Real.pi := Real.pi_pos
  rw [luv_to_lch]
  simp only
  by_cases hneg : atan2 v u < 0
  · rw [if_pos hneg]
    refine ⟨by linarith, by linarith, fun h => absurd h (not_le.mpr hneg), fun _ => rfl⟩
  · rw [if_neg hneg]
    push_neg at hneg
    exact ⟨hneg, by linarith, fun _ => rfl, fun h => absurd h (not_lt.mpr hneg)⟩

/-- Claim C6 (code bug): `Ansi256(-1).rgb` does not raise: Python's negative
list indexing reaches `ANSI8[-1]` (white), so the projection succeeds and
returns `RGB(1, 1, 1)`, against the claimed lazy validation of every code
outside [0, 255]. -/
theorem ansi256_negative_code_returns_color :
    Ansi256.rgb (-1) = some ⟨1, 1, 1⟩ := by
  have hget : pyGet ANSI8 (-1) = some (BaseColor.webColor ("white")) := by rfl
  have hlook : webLookup ("white") = some 0xffffff := by rfl
  rw [Ansi256.rgb, if_pos (by norm_num : (-1 : ℤ) < 16), hget]
  show BaseColor.rgb (BaseColor.webColor ("white")) = some ⟨1, 1, 1⟩
  rw [BaseColor.rgb, hlook]
  show some (hexRgb 0xffffff) = some (⟨1, 1, 1⟩ : RGB)
  rw [hexRgb]
  norm_num
  rw [show (16777215 >>> 16 &&& 255 : ℕ) = 255 from rfl,
    show (16777215 >>> 8 &&& 255 : ℕ) = 255 from rfl,
    show (16777215 &&& 255 : ℕ) = 255 from rfl]
  norm_num

/-- One cube channel: the source's `55 + i * 40 if i > 0 else 0` over 255
matches the claim's `0 if i = 0 else (55 + i * 40) / 255`. -/
theorem ansiCubeChan (k : ℕ) :
    (((if k > 0 then 55 + k * 40 else 0 : ℕ) : ℝ)) / 255 =
      (if k = 0 then (0 : ℝ) else ((55 + k * 40 : ℕ) : ℝ) / 255) := by
  rcases Nat.eq_zero_or_pos k with hk | hk
  · subst hk
    norm_num
  · rw [if_pos hk, if_neg (Nat.pos_iff_ne_zero.mp hk)]

/-- Claim C5: for codes 16-231 the ANSI-256 decoding follows the 6×6×6 cube
formula (channel = 0 at index 0, else `(55 + index·40)/255`), and for codes
232-255 all three channels equal `((code − 232)·10 + 8)/255`. -/
theorem ansi256_cube_and_grayscale_formulas (code : ℤ) :
    (16 ≤ code → code ≤ 231 →
      Ansi256.rgb code = some
        ⟨(if (code - 16).toNat / 36 = 0 then (0 : ℝ)
          else ((55 + ((code - 16).toNat / 36) * 40 : ℕ) : ℝ) / 255),
         (if ((code - 16).toNat % 36) / 6 = 0 then (0 : ℝ)
          else ((55 + (((code - 16).toNat % 36) / 6) * 40 : ℕ) : ℝ) / 255),
         (if (code - 16).toNat % 6 = 0 then (0 : ℝ)
          else ((55 + ((code - 16).toNat % 6) * 40 : ℕ) : ℝ) / 255)⟩) ∧
    (232 ≤ code → code ≤ 255 →
      Ansi256.rgb code = some
        ⟨(((code - 232).toNat * 10 + 8 : ℕ) : ℝ) / 255,
         (((code - 232).toNat * 10 + 8 : ℕ) : ℝ) / 255,
         (((code - 232).toNat * 10 + 8 : ℕ) : ℝ) / 255⟩) := by
  constructor
  · intro h16 h231
    rw [Ansi256.rgb, if_neg (by omega), if_pos (by omega)]
    simp only
    rw [ansiCubeChan, ansiCubeChan, ansiCubeChan]
  · intro h232 h255
    rw [Ansi256.rgb, if_neg (by omega), if_neg (by omega), if_pos (by omega)]

/-- Witness for C5 at the cube code 50 and the grayscale code 250. -/
theorem ansi256_cube_and_grayscale_witness :
    Ansi256.rgb 50 = some
        ⟨(if ((50 : ℤ) - 16).toNat / 36 = 0 then (0 : ℝ)
          else ((55 + (((50 : ℤ) - 16).toNat / 36) * 40 : ℕ) : ℝ) / 255),
         (if (((50 : ℤ) - 16).toNat % 36) / 6 = 0 then (0 : ℝ)
          else ((55 + ((((50 : ℤ) - 16).toNat % 36) / 6) * 40 : ℕ) : ℝ) / 255),
         (if ((50 : ℤ) - 16).toNat % 6 = 0 then (0 : ℝ)
          else ((55 + (((50 : ℤ) - 16).toNat % 6) * 40 : ℕ) : ℝ) / 255)⟩ ∧
      Ansi256.rgb 250 = some
        ⟨((((250 : ℤ) - 232).toNat * 10 + 8 : ℕ) : ℝ) / 255,
         ((((250 : ℤ) - 232).toNat * 10 + 8 : ℕ) : ℝ) / 255,
         ((((250 : ℤ) - 232).toNat * 10 + 8 : ℕ) : ℝ) / 255⟩ :=
  ⟨(ansi256_cube_and_grayscale_formulas 50).1 (by norm_num) (by norm_num),
   (ansi256_cube_and_grayscale_formulas 250).2 (by norm_num) (by norm_num)⟩

/-- Invariant of the `_closest_color_rgb` loop: starting from a current best
`(b, m)` with `m` the distance of `b`, the loop returns a pair whose distance
is minimal over the remaining candidates (and no larger than `m`), and which
either is the starting pair or is a candidate strictly better than `m` that
strictly beats every candidate before it. -/
theorem closestLoop_spec {α : Type} (color : RGB) (rgbOf : α → RGB) :
    ∀ (l : List α) (b : α) (m : ℝ), m = _dist_rgb color (rgbOf b) →
    ∃ p : α × ℝ,
      closestLoop color rgbOf l (some (b, m)) = some p ∧
      p.2 = _dist_rgb color (rgbOf p.1) ∧ p.2 ≤ m ∧
      (∀ x ∈ l, p.2 ≤ _dist_rgb color (rgbOf x)) ∧
      (p = (b, m) ∨ ∃ i : Fin l.length, p.1 = l.get i ∧ p.2 < m ∧
        ∀ j : Fin l.length, j < i → p.2 < _dist_rgb color (rgbOf (l.get j))) := by
  intro l
  induction l with
  | nil =>
    intro b m hm
    exact ⟨(b, m), rfl, hm, le_refl m, by simp, Or.inl rfl⟩
  | cons x xs ih =>
    intro b m hm
    by_cases hd : _dist_rgb color (rgbOf x) < m
    · obtain ⟨p, hp, hpd, hple, hall, hcase⟩ := ih x (_dist_rgb color (rgbOf x)) rfl
      have hstep : closestLoop color rgbOf (x :: xs) (some (b, m)) =
          closestLoop color rgbOf xs (some (x, _dist_rgb color (rgbOf x))) := by
        simp [closestLoop, hd]
      refine ⟨p, hstep.trans hp, hpd, le_of_lt (lt_of_le_of_lt hple hd), ?_, Or.inr ?_⟩
      · intro y hy
        rcases List.mem_cons.mp hy with rfl | hy2
        · exact hple
        · exact hall y hy2
      · rcases hcase with heq | ⟨i, hi1, hi2, hi3⟩
        · refine ⟨⟨0, by simp⟩, ?_, ?_, ?_⟩
          · rw [heq]
            rfl
          · rw [heq]
            exact hd
          · intro j hj
            exact absurd hj (Nat.not_lt_zero _)
        · refine ⟨i.succ, by rw [List.get_cons_succ', hi1], lt_trans hi2 hd, ?_⟩
          intro j hj
          cases j using Fin.cases with
          | zero => exact hi2
          | succ j2 =>
            rw [List.get_cons_succ']
            exact hi3 j2 (Fin.succ_lt_succ_iff.mp hj)
    · push_neg at hd
      obtain ⟨p, hp, hpd, hple, hall, hcase⟩ := ih b m hm
      have hstep : closestLoop color rgbOf (x :: xs) (some (b, m)) =
          closestLoop color rgbOf xs (some (b, m)) := by
        simp [closestLoop, not_lt.mpr hd]
      refine ⟨p, hstep.trans hp, hpd, hple, ?_, ?_⟩
      · intro y hy
        rcases List.mem_cons.mp hy with rfl | hy2
        · exact le_trans hple hd
        · exact hall y hy2
      · rcases hcase with heq | ⟨i, hi1, hi2, hi3⟩
        · exact Or.inl heq
        · refine Or.inr ⟨i.succ, by rw [List.get_cons_succ', hi1], hi2, ?_⟩
          intro j hj
          cases j using Fin.cases with
          | zero => exact lt_of_lt_of_le hi2 hd
          | succ j2 =>
            rw [List.get_cons_succ']
            exact hi3 j2 (Fin.succ_lt_succ_iff.mp hj)

/-- Claim C3: `_closest_color_rgb` yields no result exactly on an empty
candidate list (the loop's assertion fails only then), and on a non-empty list
it returns the first-encountered candidate of minimal distance: a candidate no
farther than every candidate and strictly closer than every earlier one, so the
result is determined by the candidate ordering. -/
theorem closest_color_first_minimum {α : Type} (color : RGB) (rgbOf : α → RGB)
    (l : List α) :
    (_closest_color_rgb color rgbOf l = none ↔ l = []) ∧
    (l ≠ [] → ∃ i : Fin l.length,
      _closest_color_rgb color rgbOf l = some (l.get i) ∧
      (∀ j : Fin l.length,
        _dist_rgb color (rgbOf (l.get i)) ≤ _dist_rgb color (rgbOf (l.get j))) ∧
      (∀ j : Fin l.length, j < i →
        _dist_rgb color (rgbOf (l.get i)) < _dist_rgb color (rgbOf (l.get j)))) := by
  cases l with
  | nil =>
    constructor
    · simp [_closest_color_rgb, closestLoop]
    · intro h
      exact absurd rfl h
  | cons x xs =>
    obtain ⟨p, hp, hpd, hple, hall, hcase⟩ :=
      closestLoop_spec color rgbOf xs x (_dist_rgb color (rgbOf x)) rfl
    have hres : _closest_color_rgb color rgbOf (x :: xs) = some p.1 := by
      rw [_closest_color_rgb, show closestLoop color rgbOf (x :: xs) none =
        closestLoop color rgbOf xs (some (x, _dist_rgb color (rgbOf x))) from by
          simp [closestLoop], hp]
      rfl
    constructor
    · rw [hres]
      simp
    · intro _
      rcases hcase with heq | ⟨i, hi1, hi2, hi3⟩
      · refine ⟨⟨0, by simp⟩, ?_, ?_, ?_⟩
        · rw [hres, heq]
          rfl
        · intro j
          cases j using Fin.cases with
          | zero => exact le_refl _
          | succ j2 =>
            rw [List.get_cons_succ']
            have : p.2 ≤ _dist_rgb color (rgbOf (xs.get j2)) :=
              hall _ (List.get_mem xs j2.1 j2.2)
            rw [hpd, heq] at this
            exact this
        · intro j hj
          exact absurd hj (Nat.not_lt_zero _)
      · refine ⟨i.succ, ?_, ?_, ?_⟩
        · rw [hres, List.get_cons_succ', hi1]
        · intro j
          rw [List.get_cons_succ', ← hi1, ← hpd]
          cases j using Fin.cases with
          | zero => exact le_trans hple (le_refl _)
          | succ j2 =>
            rw [List.get_cons_succ']
            exact hall _ (List.get_mem xs j2.1 j2.2)
        · intro j hj
          rw [List.get_cons_succ', ← hi1, ← hpd]
          cases j using Fin.cases with
          | zero => exact hi2
          | succ j2 =>
            rw [List.get_cons_succ']
            exact hi3 j2 (Fin.succ_lt_succ_iff.mp hj)

/-- Bound a 5/12-power from above by a rational: `q ≤ s → s^5 ≤ q^12` gives
`s^(5/12) ≤ q` (both sides nonnegative). -/
theorem rpow_five_twelfths_le (s q : ℝ) (hs : 0 ≤ s) (hq : 0 ≤ q)
    (h : s ^ (5 : ℕ) ≤ q ^ (12 : ℕ)) : s ^ ((5 : ℝ) / 12) ≤ q := by
  have hkey : (s ^ ((5 : ℝ) / 12)) ^ (12 : ℕ) = s ^ (5 : ℕ) := by
    rw [← Real.rpow_natCast (s ^ ((5 : ℝ) / 12)) 12, ← Real.rpow_mul hs]
    rw [show (5 : ℝ) / 12 * (12 : ℕ) = ((5 : ℕ) : ℝ) by norm_num]
    exact Real.rpow_natCast s 5
  refine le_of_pow_le_pow_left (by norm_num : (12 : ℕ) ≠ 0) hq ?_
  rw [hkey]
  exact h

/-- Bound a 5/12-power from below by a rational: `q^12 ≤ s^5` gives
`q ≤ s^(5/12)`. -/
theorem le_rpow_five_twelfths (s q : ℝ) (hs : 0 ≤ s) (hq : 0 ≤ q)
    (h : q ^ (12 : ℕ) ≤ s ^ (5 : ℕ)) : q ≤ s ^ ((5 : ℝ) / 12) := by
  have hkey : (s ^ ((5 : ℝ) / 12)) ^ (12 : ℕ) = s ^ (5 : ℕ) := by
    rw [← Real.rpow_natCast (s ^ ((5 : ℝ) / 12)) 12, ← Real.rpow_mul hs]
    rw [show (5 : ℝ) / 12 * (12 : ℕ) = ((5 : ℕ) : ℝ) by norm_num]
    exact Real.rpow_natCast s 5
  refine le_of_pow_le_pow_left (by norm_num : (12 : ℕ) ≠ 0)
    (Real.rpow_nonneg hs _) ?_
  rw [hkey]
  exact h

/-- Bound a 12/5-power from below by a rational: `q^5 ≤ s^12` gives
`q ≤ s^(12/5)`. -/
theorem le_rpow_twelve_fifths (s q : ℝ) (hs : 0 ≤ s) (hq : 0 ≤ q)
    (h : q ^ (5 : ℕ) ≤ s ^ (12 : ℕ)) : q ≤ s ^ ((12 : ℝ) / 5) := by
  have hkey : (s ^ ((12 : ℝ) / 5)) ^ (5 : ℕ) = s ^ (12 : ℕ) := by
    rw [← Real.rpow_natCast (s ^ ((12 : ℝ) / 5)) 5, ← Real.rpow_mul hs]
    rw [show (12 : ℝ) / 5 * (5 : ℕ) = ((12 : ℕ) : ℝ) by norm_num]
    exact Real.rpow_natCast s 12
  refine le_of_pow_le_pow_left (by norm_num : (5 : ℕ) ≠ 0)
    (Real.rpow_nonneg hs _) ?_
  rw [hkey]
  exact h

/-- Tangent-line (Bernoulli) bound for the concave power `x ↦ x^a`, `a ≤ 1`,
in product form: `x^a · y ≤ y^a · (y + a(x - y))`. -/
theorem rpow_tangent (a x y : ℝ) (hx : 0 ≤ x) (hy : 0 < y)
    (ha0 : 0 ≤ a) (ha1 : a ≤ 1) :
    x ^ a * y ≤ y ^ a * (y + a * (x - y)) := by
  have hs : (-1 : ℝ) ≤ x / y - 1 := by
    have : 0 ≤ x / y := div_nonneg hx hy.le
    linarith
  have hb := rpow_one_add_le_one_add_mul_self hs ha0 ha1
  rw [show (1 : ℝ) + (x / y - 1) = x / y by ring] at hb
  have hxy : (x / y) ^ a = x ^ a / y ^ a := Real.div_rpow hx hy.le a
  rw [hxy] at hb
  have hya : 0 < y ^ a := Real.rpow_pos_of_pos hy a
  have h2 : x ^ a / y ^ a * (y ^ a * y) ≤ (1 + a * (x / y - 1)) * (y ^ a * y) := by
    exact mul_le_mul_of_nonneg_right hb (by positivity)
  calc x ^ a * y = x ^ a / y ^ a * (y ^ a * y) := by
        field_simp
        ring
    _ ≤ (1 + a * (x / y - 1)) * (y ^ a * y) := h2
    _ = y ^ a * (y + a * (x - y)) := by
        field_simp
        ring

/-- Transfer a slope certificate along monotonicity: if `m^(5/12) ≤ R·m` and
`0 < m ≤ y` then `y^(5/12) ≤ R·y` (the slope `y^(a-1)` only decreases). -/
theorem rpow_slope_mono (m R y : ℝ) (hm : 0 < m) (hmy : m ≤ y)
    (hcert : m ^ ((5 : ℝ) / 12) ≤ R * m) : y ^ ((5 : ℝ) / 12) ≤ R * y := by
  have hy : 0 < y := lt_of_lt_of_le hm hmy
  have hdiv : (1 : ℝ) ≤ y / m := (one_le_div hm).mpr hmy
  have h1 : (y / m) ^ ((5 : ℝ) / 12) ≤ (y / m) ^ (1 : ℝ) :=
    Real.rpow_le_rpow_of_exponent_le hdiv (by norm_num)
  rw [Real.rpow_one, Real.div_rpow hy.le hm.le] at h1
  have hma : 0 < m ^ ((5 : ℝ) / 12) := Real.rpow_pos_of_pos hm _
  have h2 : y ^ ((5 : ℝ) / 12) * m ≤ m ^ ((5 : ℝ) / 12) * y := by
    rw [div_le_div_iff (by positivity) hm] at h1
    linarith
  have h3 : m ^ ((5 : ℝ) / 12) * y ≤ R * m * y :=
    mul_le_mul_of_nonneg_right hcert hy.le
  have h4 : y ^ ((5 : ℝ) / 12) * m ≤ R * y * m := by
    rw [show R * y * m = R * m * y by ring]
    exact le_trans h2 h3
  exact le_of_mul_le_mul_right h4 hm

/-- Increment bound for `delinearize` on its power branch: if the lower point
`y` carries the slope certificate `y^(5/12) ≤ R·y` then
`1.055·x^(5/12) ≤ 1.055·y^(5/12) + (211/480)·R·(x - y)` for `y ≤ x`. -/
theorem delin_pow_incr (x y R : ℝ) (hy : 0 < y) (hxy : y ≤ x)
    (hR : y ^ ((5 : ℝ) / 12) ≤ R * y) :
    1.055 * x ^ ((5 : ℝ) / 12) ≤
      1.055 * y ^ ((5 : ℝ) / 12) + 211 / 480 * R * (x - y) := by
  have hx0 : 0 ≤ x := le_trans hy.le hxy
  have htan := rpow_tangent ((5 : ℝ) / 12) x y hx0 hy (by norm_num) (by norm_num)
  have hya : 0 ≤ y ^ ((5 : ℝ) / 12) := Real.rpow_nonneg hy.le _
  have hslope : y ^ ((5 : ℝ) / 12) * ((5 : ℝ) / 12 * (x - y)) ≤
      R * y * ((5 : ℝ) / 12 * (x - y)) :=
    mul_le_mul_of_nonneg_right hR (by nlinarith)
  have hmain : x ^ ((5 : ℝ) / 12) * y ≤
      y ^ ((5 : ℝ) / 12) * y + R * y * ((5 : ℝ) / 12 * (x - y)) := by
    nlinarith [htan]
  have h5 : x ^ ((5 : ℝ) / 12) * y ≤
      (y ^ ((5 : ℝ) / 12) + R * ((5 : ℝ) / 12 * (x - y))) * y := by
    nlinarith [hmain]
  have hdivy := le_of_mul_le_mul_right h5 hy
  nlinarith [hdivy]

/-- Slope certificate at the delinearization threshold `θ = 0.0031308`:
the derivative factor `θ^(5/12)/θ` stays below `12.75·480/211`. -/
theorem cert_slope_theta :
    (0.0031308 : ℝ) ^ ((5 : ℝ) / 12) ≤ 12.75 * 480 / 211 * 0.0031308 :=
  rpow_five_twelfths_le _ _ (by norm_num) (by norm_num) (by norm_num)

/-- Slope certificate at `0.00399`. -/
theorem cert_slope_004 :
    (0.00399 : ℝ) ^ ((5 : ℝ) / 12) ≤ 11.05 * 480 / 211 * 0.00399 :=
  rpow_five_twelfths_le _ _ (by norm_num) (by norm_num) (by norm_num)

/-- Slope certificate at `0.0999`. -/
theorem cert_slope_01 :
    (0.0999 : ℝ) ^ ((5 : ℝ) / 12) ≤ 1.69 * 480 / 211 * 0.0999 :=
  rpow_five_twelfths_le _ _ (by norm_num) (by norm_num) (by norm_num)

/-- The power branch of `delinearize` at the threshold sits just below the
linear branch: `delin_pow(θ) ≤ 12.92·θ − 2.8e-8`. -/
theorem cert_delin_up :
    1.055 * (0.0031308 : ℝ) ^ ((5 : ℝ) / 12) - 0.055 ≤ 12.92 * 0.0031308 - 2.8e-8 := by
  have h := rpow_five_twelfths_le 0.0031308
    ((12.92 * 0.0031308 - 2.8e-8 + 0.055) / 1.055) (by norm_num) (by norm_num)
    (by norm_num)
  linarith

/-- And not more than `2.9e-8` below it: `12.92·θ − 2.9e-8 ≤ delin_pow(θ)`. -/
theorem cert_delin_low :
    12.92 * 0.0031308 - 2.9e-8 ≤ 1.055 * (0.0031308 : ℝ) ^ ((5 : ℝ) / 12) - 0.055 := by
  have h := le_rpow_five_twelfths 0.0031308
    ((12.92 * 0.0031308 - 2.9e-8 + 0.055) / 1.055) (by norm_num) (by norm_num)
    (by norm_num)
  linarith

/-- The linearized value of the gamma threshold `0.04045` is at least the
delinearization threshold `0.0031308`. -/
theorem cert_lin_threshold :
    (0.0031308 : ℝ) ≤ ((0.04045 + 0.055) / 1.055 : ℝ) ^ ((12 : ℝ) / 5) :=
  le_rpow_twelve_fifths _ _ (by norm_num) (by norm_num) (by norm_num)

/-- Everywhere on the power branch, `delinearize` stays below the line
`12.92·x − 2.8e-8` (tangent bound at the threshold). -/
theorem delin_pow_le_line (x : ℝ) (hx : (0.0031308 : ℝ) ≤ x) :
    1.055 * x ^ ((5 : ℝ) / 12) - 0.055 ≤ 12.92 * x - 2.8e-8 := by
  have h1 := delin_pow_incr x 0.0031308 (12.75 * 480 / 211) (by norm_num) hx
    cert_slope_theta
  nlinarith [cert_delin_up]

/-- Everywhere on the power branch, `delinearize` stays above the value at the
threshold, `12.92·θ − 2.9e-8`. -/
theorem delin_pow_ge_corner (x : ℝ) (hx : (0.0031308 : ℝ) ≤ x) :
    12.92 * 0.0031308 - 2.9e-8 ≤ 1.055 * x ^ ((5 : ℝ) / 12) - 0.055 := by
  have hmono : (0.0031308 : ℝ) ^ ((5 : ℝ) / 12) ≤ x ^ ((5 : ℝ) / 12) :=
    Real.rpow_le_rpow (by norm_num) hx (by norm_num)
  linarith [cert_delin_low]

/-- The linearization maps [0, 1] into [0, 1] (lower bound). -/
theorem linChan_nonneg (c : ℝ) (hc : 0 ≤ c) : 0 ≤ linChan c := by
  rw [linChan]
  split_ifs with h
  · exact Real.rpow_nonneg (div_nonneg (by linarith) (by norm_num)) _
  · exact div_nonneg hc (by norm_num)

/-- The linearization maps [0, 1] into [0, 1] (upper bound). -/
theorem linChan_le_one (c : ℝ) (hc0 : 0 ≤ c) (hc1 : c ≤ 1) : linChan c ≤ 1 := by
  rw [linChan]
  split_ifs with h
  · refine Real.rpow_le_one (div_nonneg (by linarith) (by norm_num)) ?_ (by norm_num)
    rw [div_le_one (by norm_num)]
    linarith
  · rw [div_le_one (by norm_num)]
    linarith

/-- Per-channel round-trip bound: when `t` is the linearized value of a
channel `c ∈ [0, 1]` and the linear-stage error `e` obeys the matrix row bound
`|e| ≤ 6.75e-8 + 4.75e-8·t`, delinearizing `t + e` recovers `c` within `1e-6`. -/
theorem delin_perturb (c t e : ℝ) (hc0 : 0 ≤ c) (hc1 : c ≤ 1) (ht : t = linChan c)
    (he : |e| ≤ 6.75e-8 + 4.75e-8 * t) : |delinChan (t + e) - c| ≤ 1e-6 := by
  obtain ⟨he1, he2⟩ := abs_le.mp he
  have ht0 : 0 ≤ t := ht ▸ linChan_nonneg c hc0
  have ht1 : t ≤ 1 := ht ▸ linChan_le_one c hc0 hc1
  rw [abs_le]
  by_cases hc : c ≤ 0.04045
  · have htEq : t = c / 12.92 := by
      rw [ht, linChan, if_neg (not_lt.mpr hc)]
    have hcEq : c = 12.92 * t := by
      rw [htEq]
      ring
    have htup : t ≤ 0.04045 / 12.92 := by
      rw [htEq, div_le_div_iff (by norm_num) (by norm_num)]
      linarith only [hc]
    by_cases hbr : t + e > 0.0031308
    · rw [delinChan, if_pos hbr, show ((1 : ℝ) / 2.4) = 5 / 12 by norm_num]
      have hup := delin_pow_le_line (t + e) (le_of_lt hbr)
      have hlow := delin_pow_ge_corner (t + e) (le_of_lt hbr)
      constructor
      · linarith only [hlow, hcEq, htup]
      · linarith only [hup, hcEq, he2, htup]
    · rw [delinChan, if_neg hbr]
      constructor
      · linarith only [he1, hcEq, htup]
      · linarith only [he2, hcEq, htup]
  · push_neg at hc
    have hb0 : (0 : ℝ) < (c + 0.055) / 1.055 := div_pos (by linarith only [hc]) (by norm_num)
    have htEq : t = ((c + 0.055) / 1.055) ^ ((12 : ℝ) / 5) := by
      rw [ht, linChan, if_pos hc, show (2.4 : ℝ) = 12 / 5 by norm_num]
    have hcEq : c = 1.055 * t ^ ((5 : ℝ) / 12) - 0.055 := by
      rw [htEq, ← Real.rpow_mul hb0.le]
      rw [show (12 : ℝ) / 5 * (5 / 12) = 1 by norm_num, Real.rpow_one]
      field_simp
    have htθ : (0.0031308 : ℝ) ≤ t := by
      rw [htEq]
      refine le_trans cert_lin_threshold
        (Real.rpow_le_rpow (by norm_num) ?_ (by norm_num))
      rw [div_le_div_iff (by norm_num) (by norm_num)]
      nlinarith [hc]
    by_cases hbr : t + e > 0.0031308
    · rw [delinChan, if_pos hbr, show ((1 : ℝ) / 2.4) = 5 / 12 by norm_num]
      rcases le_or_lt 0 e with hepos | heneg
      · have herr0 : 1.055 * t ^ ((5 : ℝ) / 12) ≤ 1.055 * (t + e) ^ ((5 : ℝ) / 12) := by
          have := Real.rpow_le_rpow ht0 (by linarith only [hepos] : t ≤ t + e)
            (by norm_num : (0 : ℝ) ≤ (5 : ℝ) / 12)
          linarith only [this]
        rcases le_or_lt t 0.004 with h4 | h4
        · have hR : t ^ ((5 : ℝ) / 12) ≤ 12.75 * 480 / 211 * t :=
            rpow_slope_mono 0.0031308 _ t (by norm_num) htθ cert_slope_theta
          have hinc := delin_pow_incr (t + e) t (12.75 * 480 / 211)
            (by linarith only [htθ]) (by linarith only [hepos]) hR
          constructor
          · linarith only [herr0, hcEq]
          · linarith only [hinc, hcEq, he2, h4]
        · rcases le_or_lt t 0.1 with h01 | h01
          · have hR : t ^ ((5 : ℝ) / 12) ≤ 11.05 * 480 / 211 * t :=
              rpow_slope_mono 0.00399 _ t (by norm_num) (by linarith only [h4]) cert_slope_004
            have hinc := delin_pow_incr (t + e) t (11.05 * 480 / 211)
              (by linarith only [h4]) (by linarith only [hepos]) hR
            constructor
            · linarith only [herr0, hcEq]
            · linarith only [hinc, hcEq, he2, h01]
          · have hR : t ^ ((5 : ℝ) / 12) ≤ 1.69 * 480 / 211 * t :=
              rpow_slope_mono 0.0999 _ t (by norm_num) (by linarith only [h01]) cert_slope_01
            have hinc := delin_pow_incr (t + e) t (1.69 * 480 / 211)
              (by linarith only [h01]) (by linarith only [hepos]) hR
            constructor
            · linarith only [herr0, hcEq]
            · linarith only [hinc, hcEq, he2, ht1]
      · have herr0 : 1.055 * (t + e) ^ ((5 : ℝ) / 12) ≤ 1.055 * t ^ ((5 : ℝ) / 12) := by
          have := Real.rpow_le_rpow (by linarith only [hbr] : (0 : ℝ) ≤ t + e)
            (by linarith only [heneg] : t + e ≤ t) (by norm_num : (0 : ℝ) ≤ (5 : ℝ) / 12)
          linarith only [this]
        rcases le_or_lt t 0.004 with h4 | h4
        · have hR : (t + e) ^ ((5 : ℝ) / 12) ≤ 12.75 * 480 / 211 * (t + e) :=
            rpow_slope_mono 0.0031308 _ (t + e) (by norm_num) (le_of_lt hbr)
              cert_slope_theta
          have hinc := delin_pow_incr t (t + e) (12.75 * 480 / 211)
            (by linarith only [hbr]) (by linarith only [heneg]) hR
          constructor
          · linarith only [hinc, hcEq, he1, h4]
          · linarith only [herr0, hcEq]
        · rcases le_or_lt t 0.1 with h01 | h01
          · have hy : (0.00399 : ℝ) ≤ t + e := by linarith only [he1, h4, h01]
            have hR := rpow_slope_mono 0.00399 (11.05 * 480 / 211) (t + e)
              (by norm_num) hy cert_slope_004
            have hinc := delin_pow_incr t (t + e) (11.05 * 480 / 211)
              (by linarith only [hy]) (by linarith only [heneg]) hR
            constructor
            · linarith only [hinc, hcEq, he1, h01]
            · linarith only [herr0, hcEq]
          · have hy : (0.0999 : ℝ) ≤ t + e := by linarith only [he1, h01, ht1]
            have hR := rpow_slope_mono 0.0999 (1.69 * 480 / 211) (t + e)
              (by norm_num) hy cert_slope_01
            have hinc := delin_pow_incr t (t + e) (1.69 * 480 / 211)
              (by linarith only [hy]) (by linarith only [heneg]) hR
            constructor
            · linarith only [hinc, hcEq, he1, ht1]
            · linarith only [herr0, hcEq]
    · rw [delinChan, if_neg hbr]
      push_neg at hbr
      have htsmall : t ≤ 0.0032 := by linarith only [hbr, he1]
      have hcup : c ≤ 12.92 * t - 2.8e-8 := hcEq ▸ delin_pow_le_line t htθ
      have hclow : 12.92 * 0.0031308 - 2.9e-8 ≤ c := hcEq ▸ delin_pow_ge_corner t htθ
      constructor
      · linarith only [hcup, he1, htsmall]
      · linarith only [hclow, hbr]

/-- A channel of the round trip: `delinChan X` recovers `c` when `X` deviates
from the linearized channel by at most the matrix row bound. -/
theorem roundtrip_channel (c t X : ℝ) (hc0 : 0 ≤ c) (hc1 : c ≤ 1)
    (ht : t = linChan c) (hX : |X - t| ≤ 6.75e-8 + 4.75e-8 * t) :
    |delinChan X - c| ≤ 1e-6 := by
  have h := delin_perturb c t (X - t) hc0 hc1 ht hX
  rwa [show t + (X - t) = X by ring] at h

/-- Claim C1: for every (r, g, b) in [0, 1]³, `xyz_to_rgb (rgb_to_xyz r g b)`
returns each channel within `1e-6` of the original (the RGB↔XYZ round-trip
law). -/
theorem rgb_xyz_roundtrip_within_tolerance (r g b : ℝ)
    (hr0 : 0 ≤ r) (hr1 : r ≤ 1) (hg0 : 0 ≤ g) (hg1 : g ≤ 1)
    (hb0 : 0 ≤ b) (hb1 : b ≤ 1) :
    |(xyz_to_rgb (rgb_to_xyz r g b).1 (rgb_to_xyz r g b).2.1
        (rgb_to_xyz r g b).2.2).1 - r| ≤ 1e-6 ∧
    |(xyz_to_rgb (rgb_to_xyz r g b).1 (rgb_to_xyz r g b).2.1
        (rgb_to_xyz r g b).2.2).2.1 - g| ≤ 1e-6 ∧
    |(xyz_to_rgb (rgb_to_xyz r g b).1 (rgb_to_xyz r g b).2.1
        (rgb_to_xyz r g b).2.2).2.2 - b| ≤ 1e-6 := by
  have hlr0 : 0 ≤ linChan r := linChan_nonneg r hr0
  have hlr1 : linChan r ≤ 1 := linChan_le_one r hr0 hr1
  have hlg0 : 0 ≤ linChan g := linChan_nonneg g hg0
  have hlg1 : linChan g ≤ 1 := linChan_le_one g hg0 hg1
  have hlb0 : 0 ≤ linChan b := linChan_nonneg b hb0
  have hlb1 : linChan b ≤ 1 := linChan_le_one b hb0 hb1
  refine ⟨?_, ?_, ?_⟩
  · rw [show (xyz_to_rgb (rgb_to_xyz r g b).1 (rgb_to_xyz r g b).2.1
        (rgb_to_xyz r g b).2.2).1 = delinChan
          (3.2406254 * (0.4124 * linChan r + 0.3576 * linChan g + 0.1805 * linChan b)
          - 1.537208 * (0.2126 * linChan r + 0.7152 * linChan g + 0.0722 * linChan b)
          - 0.4986286 * (0.0193 * linChan r + 0.1192 * linChan g + 0.9505 * linChan b))
        from rfl]
    refine roundtrip_channel r (linChan r) _ hr0 hr1 rfl ?_
    have hexp :
        (3.2406254 * (0.4124 * linChan r + 0.3576 * linChan g + 0.1805 * linChan b)
          - 1.537208 * (0.2126 * linChan r + 0.7152 * linChan g + 0.0722 * linChan b)
          - 0.4986286 * (0.0193 * linChan r + 0.1192 * linChan g + 0.9505 * linChan b))
          - linChan r
        = -(3782e-11) * linChan r - 4768e-11 * linChan g - 1720e-11 * linChan b := by
      ring
    rw [abs_le]
    constructor
    · rw [hexp]
      linarith only [hlr0, hlr1, hlg0, hlg1, hlb0, hlb1]
    · rw [hexp]
      linarith only [hlr0, hlr1, hlg0, hlg1, hlb0, hlb1]
  · rw [show (xyz_to_rgb (rgb_to_xyz r g b).1 (rgb_to_xyz r g b).2.1
        (rgb_to_xyz r g b).2.2).2.1 = delinChan
          (-0.9689307 * (0.4124 * linChan r + 0.3576 * linChan g + 0.1805 * linChan b)
          + 1.8757561 * (0.2126 * linChan r + 0.7152 * linChan g + 0.0722 * linChan b)
          + 0.0415175 * (0.0193 * linChan r + 0.1192 * linChan g + 0.9505 * linChan b))
        from rfl]
    refine roundtrip_channel g (linChan g) _ hg0 hg1 rfl ?_
    have hexp :
        (-0.9689307 * (0.4124 * linChan r + 0.3576 * linChan g + 0.1805 * linChan b)
          + 1.8757561 * (0.2126 * linChan r + 0.7152 * linChan g + 0.0722 * linChan b)
          + 0.0415175 * (0.0193 * linChan r + 0.1192 * linChan g + 0.9505 * linChan b))
          - linChan g
        = 1393e-11 * linChan r + 3040e-11 * linChan g - 1718e-11 * linChan b := by
      ring
    rw [abs_le]
    constructor
    · rw [hexp]
      linarith only [hlr0, hlr1, hlg0, hlg1, hlb0, hlb1]
    · rw [hexp]
      linarith only [hlr0, hlr1, hlg0, hlg1, hlb0, hlb1]
  · rw [show (xyz_to_rgb (rgb_to_xyz r g b).1 (rgb_to_xyz r g b).2.1
        (rgb_to_xyz r g b).2.2).2.2 = delinChan
          (0.0557101 * (0.4124 * linChan r + 0.3576 * linChan g + 0.1805 * linChan b)
          - 0.2040211 * (0.2126 * linChan r + 0.7152 * linChan g + 0.0722 * linChan b)
          + 1.0569959 * (0.0193 * linChan r + 0.1192 * linChan g + 0.9505 * linChan b))
        from rfl]
    refine roundtrip_channel b (linChan b) _ hb0 hb1 rfl ?_
    have hexp :
        (0.0557101 * (0.4124 * linChan r + 0.3576 * linChan g + 0.1805 * linChan b)
          - 0.2040211 * (0.2126 * linChan r + 0.7152 * linChan g + 0.0722 * linChan b)
          + 1.0569959 * (0.0193 * linChan r + 0.1192 * linChan g + 0.9505 * linChan b))
          - linChan b
        = -(1975e-11) * linChan r - 4768e-11 * linChan g - 4742e-11 * linChan b := by
      ring
    rw [abs_le]
    constructor
    · rw [hexp]
      linarith only [hlr0, hlr1, hlg0, hlg1, hlb0, hlb1]
    · rw [hexp]
      linarith only [hlr0, hlr1, hlg0, hlg1, hlb0, hlb1]

/-- Witness for C1 at (0, 0, 0). -/
theorem rgb_xyz_roundtrip_witness :
    |(xyz_to_rgb (rgb_to_xyz 0 0 0).1 (rgb_to_xyz 0 0 0).2.1
        (rgb_to_xyz 0 0 0).2.2).1 - 0| ≤ 1e-6 ∧
    |(xyz_to_rgb (rgb_to_xyz 0 0 0).1 (rgb_to_xyz 0 0 0).2.1
        (rgb_to_xyz 0 0 0).2.2).2.1 - 0| ≤ 1e-6 ∧
    |(xyz_to_rgb (rgb_to_xyz 0 0 0).1 (rgb_to_xyz 0 0 0).2.1
        (rgb_to_xyz 0 0 0).2.2).2.2 - 0| ≤ 1e-6 :=
  rgb_xyz_roundtrip_within_tolerance 0 0 0 le_rfl (by norm_num) le_rfl
    (by norm_num) le_rfl (by norm_num)
